import Mathlib

/-!
Verification of the fully-connected layer in
`src/Reference_Code_Of_Matirx_Computing/fc_layer.cu`.

Device memory is modelled as total functions `Nat → ℚ` (a flat float buffer,
idealized to exact rational arithmetic).  The cuBLAS primitives `cublasSgemm`
and `cublasSaxpy`, the runtime primitives `cudaMemcpy` (device-to-device) and
`cudaMemset`, and the two custom kernels `init_weights` and
`update_params_kernel` are embedded as pure buffer transformers, faithful to
their column-major index arithmetic.  The float square root `sqrtf` is kept
abstract as a parameter `sqrtf : ℚ → ℚ`, and the per-state `curand_uniform`
draw is a parameter `u : Nat → ℚ` (one draw per curand state index).
-/

namespace FC

/-- A flat device buffer of floats, modelled as a total function. -/
abbrev Buf := Nat → ℚ

/-- Element `(i, k)` of `op(A)` for a column-major matrix `A` with leading
dimension `ld`: `A[i + k*ld]` when not transposed, `A[k + i*ld]` when
transposed.  Mirrors the `CUBLAS_OP_N` / `CUBLAS_OP_T` selector of
`cublasSgemm`. -/
def opEl (trans : Bool) (A : Buf) (ld : Nat) (i k : Nat) : ℚ :=
  if trans then A (k + i * ld) else A (i + k * ld)

/-- `cublasSgemm`: overwrites the `m × n` region of `C` (column-major, leading
dimension `ldc`) with `alpha * op(A) * op(B) + beta * C`; entries outside that
region are untouched. -/
def sgemm (transa transb : Bool) (m n kk : Nat) (alpha : ℚ)
    (A : Buf) (lda : Nat) (B : Buf) (ldb : Nat)
    (beta : ℚ) (C : Buf) (ldc : Nat) : Buf :=
  fun idx =>
    if idx % ldc < m ∧ idx / ldc < n then
      alpha * (Finset.range kk).sum
          (fun l => opEl transa A lda (idx % ldc) l * opEl transb B ldb l (idx / ldc))
        + beta * C idx
    else C idx

/-- `cublasSaxpy` with unit strides: `y[i] := alpha * x[i] + y[i]` for
`i < n`, other entries of `y` untouched. -/
def saxpy (n : Nat) (alpha : ℚ) (x : Buf) (y : Buf) : Buf :=
  fun idx => if idx < n then alpha * x idx + y idx else y idx

/-- `cudaMemcpy(dst + dstOff, src, count * sizeof(float), DeviceToDevice)`:
copies `src[0..count)` onto `dst[dstOff..dstOff+count)`. -/
def memcpyRegion (dst : Buf) (dstOff : Nat) (src : Buf) (count : Nat) : Buf :=
  fun idx => if dstOff ≤ idx ∧ idx < dstOff + count then src (idx - dstOff) else dst idx

/-- The `init_weights` kernel: for each `idx < size` the weight is
`(curand_uniform(state\x7bidx\x7d) * 2 - 1) * sqrtf(6 / size)`.  The `scale`
argument is received (the caller passes `sqrtf(2 / input_size)`) but, as in
the source, never read.  `u idx` models the `curand_uniform` draw from state
`idx`; `sqrtf` models the device float square root. -/
def init_weights (weights : Buf) (size : Nat) (scale : ℚ) (u : Buf)
    (sqrtf : ℚ → ℚ) : Buf :=
  fun idx => if idx < size then (u idx * 2 - 1) * sqrtf (6 / (size : ℚ)) else weights idx

/-- The `update_params_kernel`: `params[idx] -= learning_rate * grads[idx]`
for every `idx < size` (each launched thread is guarded by `idx < size`). -/
def update_params_kernel (params : Buf) (grads : Buf) (size : Nat)
    (learning_rate : ℚ) : Buf :=
  fun idx => if idx < size then params idx - learning_rate * grads idx else params idx

/-- The device-resident state of an `FCLayer`: the two dimensions fixed at
construction and the four owned buffers. -/
structure FCLayer where
  input_size : Nat
  output_size : Nat
  weights : Buf
  bias : Buf
  grad_weights : Buf
  grad_bias : Buf

/-- The bias loop of `FCLayer::forward`: for `i = 0 .. batch_size-1`,
`cudaMemcpy(output + i*output_size, bias, output_size * sizeof(float), DeviceToDevice)`. -/
def addBiasLoop (bias : Buf) (output_size : Nat) : Nat → Buf → Buf
  | 0, out => out
  | n + 1, out =>
      memcpyRegion (addBiasLoop bias output_size n out) (n * output_size) bias output_size

/-- `FCLayer::forward`: one `cublasSgemm` call computing
`output = 1 * weightsᵗ * input + 0 * output` (dimensions
`output_size × batch_size × input_size`, leading dimensions
`input_size, input_size, output_size`), followed by the per-batch bias
`cudaMemcpy` loop.  Returns the final contents of the `output` buffer. -/
def FCLayer.forward (L : FCLayer) (input : Buf) (output : Buf) (batch_size : Nat) : Buf :=
  addBiasLoop L.bias L.output_size batch_size
    (sgemm true false L.output_size batch_size L.input_size 1
      L.weights L.input_size input L.input_size 0 output L.output_size)

/-- The bias-gradient loop of `FCLayer::backward`: for `i = 0 .. batch_size-1`,
`cublasSaxpy(output_size, 1.0, grad_output + i*output_size, 1, grad_bias, 1)`. -/
def biasGradLoop (grad_output : Buf) (output_size : Nat) : Nat → Buf → Buf
  | 0, gb => gb
  | n + 1, gb =>
      saxpy output_size 1 (fun t => grad_output (n * output_size + t))
        (biasGradLoop grad_output output_size n gb)

/-- `FCLayer::backward`: three steps on the layer state `L` —
`grad_input = 1 * weights * grad_output + 0 * grad_input` (one `cublasSgemm`,
no transposes), `grad_weights = 1 * input * grad_outputᵗ + 0 * grad_weights`
(one `cublasSgemm`), and the per-batch `cublasSaxpy` accumulation into
`grad_bias`.  Returns the final contents of the caller's `grad_input` buffer
together with the updated layer state. -/
def FCLayer.backward (L : FCLayer) (input grad_output grad_input : Buf)
    (batch_size : Nat) : Buf × FCLayer :=
  ( sgemm false false L.input_size batch_size L.output_size 1
      L.weights L.input_size grad_output L.output_size 0 grad_input L.input_size,
    { L with
      grad_weights := sgemm false true L.input_size L.output_size batch_size 1
        input L.input_size grad_output L.output_size 0 L.grad_weights L.input_size,
      grad_bias := biasGradLoop grad_output L.output_size batch_size L.grad_bias } )

/-- `FCLayer::update_params`: two `update_params_kernel` launches, one over
the whole weight buffer (`input_size * output_size` elements against
`grad_weights`), one over the whole bias buffer (`output_size` elements
against `grad_bias`). -/
def FCLayer.update_params (L : FCLayer) (learning_rate : ℚ) : FCLayer :=
  { L with
    weights := update_params_kernel L.weights L.grad_weights
      (L.input_size * L.output_size) learning_rate,
    bias := update_params_kernel L.bias L.grad_bias L.output_size learning_rate }

/-- `FCLayer::FCLayer(input_size, output_size)`: the four `cudaMalloc` calls
return buffers with indeterminate contents `w0, b0, gw0, gb0`; `init_weights`
is launched over the weight buffer with scale argument
`sqrtf(2 / input_size)`; `cudaMemset(bias, 0, output_size * sizeof(float))`
zero-fills the bias.  `grad_weights` and `grad_bias` are never written by the
constructor, so they keep their allocation contents. -/
def FCLayer.construct (input_size output_size : Nat) (w0 b0 gw0 gb0 : Buf)
    (u : Buf) (sqrtf : ℚ → ℚ) : FCLayer :=
  { input_size := input_size
    output_size := output_size
    weights := init_weights w0 (input_size * output_size)
      (sqrtf (2 / (input_size : ℚ))) u sqrtf
    bias := fun idx => if idx < output_size then 0 else b0 idx
    grad_weights := gw0
    grad_bias := gb0 }

/-- Concrete 1×1 example layer used to witness theorems with hypotheses:
weights all 2, bias all 0, `grad_weights` garbage 5, `grad_bias` garbage 7. -/
def Lc : FCLayer := ⟨1, 1, fun _ => 2, fun _ => 0, fun _ => 5, fun _ => 7⟩

/-- Concrete input buffer (all 3) for the witnesses. -/
def cinput : Buf := fun _ => 3

/-- Concrete output-gradient buffer (all 4) for the witnesses. -/
def cgo : Buf := fun _ => 4

/-- Concrete input-gradient buffer (all 9) for the witnesses. -/
def cgin : Buf := fun _ => 9

theorem sgemm_apply (ta tb : Bool) (m n kk : Nat) (al : ℚ) (A : Buf) (lda : Nat)
    (B : Buf) (ldb : Nat) (be : ℚ) (C : Buf) (i j : Nat) (hi : i < m) (hj : j < n) :
    sgemm ta tb m n kk al A lda B ldb be C m (i + j * m)
      = al * (Finset.range kk).sum (fun l => opEl ta A lda i l * opEl tb B ldb l j)
        + be * C (i + j * m) := by
  have hm : 0 < m := Nat.lt_of_le_of_lt (Nat.zero_le i) hi
  have h1 : (i + j * m) % m = i := by
    rw [Nat.add_mul_mod_self_right, Nat.mod_eq_of_lt hi]
  have h2 : (i + j * m) / m = j := by
    rw [Nat.add_mul_div_right _ _ hm, Nat.div_eq_of_lt hi, Nat.zero_add]
  simp only [sgemm, h1, h2, if_pos (And.intro hi hj)]

theorem sgemm_beta_zero_twice (ta tb : Bool) (m n kk : Nat) (al : ℚ) (A : Buf) (lda : Nat)
    (B : Buf) (ldb : Nat) (C : Buf) (ldc : Nat) :
    sgemm ta tb m n kk al A lda B ldb 0 (sgemm ta tb m n kk al A lda B ldb 0 C ldc) ldc
      = sgemm ta tb m n kk al A lda B ldb 0 C ldc := by
  funext idx
  by_cases h : idx % ldc < m ∧ idx / ldc < n
  · simp [sgemm, h]
  · simp [sgemm, h]

theorem addBiasLoop_apply (bias : Buf) (os : Nat) (out : Buf) (i : Nat) (hi : i < os) :
    ∀ b j, j < b → addBiasLoop bias os b out (j * os + i) = bias i := by
  intro b
  induction b with
  | zero => intro j hj; omega
  | succ n ih =>
    intro j hj
    show memcpyRegion (addBiasLoop bias os n out) (n * os) bias os (j * os + i) = bias i
    rcases Nat.lt_succ_iff_lt_or_eq.mp hj with h | h
    · have h1 : j * os + os ≤ n * os := by
        calc j * os + os = (j + 1) * os := by ring
          _ ≤ n * os := Nat.mul_le_mul_right os h
      have hlt : j * os + i < n * os := by omega
      unfold memcpyRegion
      rw [if_neg (by omega)]
      exact ih j h
    · subst h
      unfold memcpyRegion
      rw [if_pos ⟨Nat.le_add_right _ _, by omega⟩]
      simp

theorem biasGradLoop_apply (go : Buf) (os : Nat) (gb : Buf) (idx : Nat) (h : idx < os) :
    ∀ b, biasGradLoop go os b gb idx
      = gb idx + (Finset.range b).sum (fun i => go (i * os + idx)) := by
  intro b
  induction b with
  | zero => simp [biasGradLoop]
  | succ n ih =>
    show saxpy os 1 (fun t => go (n * os + t)) (biasGradLoop go os n gb) idx = _
    unfold saxpy
    rw [if_pos h, ih, Finset.sum_range_succ]
    ring

/-- C1: the claim that after `forward(Input, Output, batch_size)` each output
column equals `Wᵗ · Input[:,j] + b` fails on the code: the bias loop uses
`cudaMemcpy`, which overwrites each column with the bias instead of adding it.
On a 1×1 layer with `weights = [1]`, `bias = [0]`, `Input = [1]`,
`batch_size = 1`, the GEMM value `Wᵗ·Input + b` at position `(0,0)` is `1`
(second conjunct evaluates that very `sgemm` call), yet `forward` leaves `0`
in the output (first conjunct). -/
theorem forward_bias_overwrite_bug :
    (FCLayer.forward ⟨1, 1, fun _ => 1, fun _ => 0, fun _ => 0, fun _ => 0⟩
        (fun _ => 1) (fun _ => 0) 1) 0 = 0
      ∧ sgemm true false 1 1 1 1 (fun _ => 1) 1 (fun _ => 1) 1 0 (fun _ => 0) 1 0
          + (0 : ℚ) = 1 :=
  ⟨by decide, by norm_num [sgemm, opEl]⟩

/-- C2: `backward(Input, GradOutput, GradInput, batch_size)` writes
`GradInput = W · GradOutput` (entry `(i,j)`), overwrites
`gradW = Input · GradOutputᵗ` (entry `(i,l)`, accumulate coefficient zero),
and increments `gradB` by the sum over the `batch_size` columns of
`GradOutput`, on top of its prior contents. -/
theorem backward_spec (L : FCLayer) (input go gin : Buf) (b : Nat)
    (i j l idx : Nat) (hi : i < L.input_size) (hj : j < b)
    (hl : l < L.output_size) (hidx : idx < L.output_size) :
    (L.backward input go gin b).1 (i + j * L.input_size)
        = (Finset.range L.output_size).sum
            (fun t => L.weights (i + t * L.input_size) * go (t + j * L.output_size))
      ∧ (L.backward input go gin b).2.grad_weights (i + l * L.input_size)
        = (Finset.range b).sum
            (fun t => input (i + t * L.input_size) * go (l + t * L.output_size))
      ∧ (L.backward input go gin b).2.grad_bias idx
        = L.grad_bias idx + (Finset.range b).sum (fun t => go (t * L.output_size + idx)) := by
  refine ⟨?_, ?_, ?_⟩
  · show sgemm false false L.input_size b L.output_size 1 L.weights L.input_size go
        L.output_size 0 gin L.input_size (i + j * L.input_size) = _
    rw [sgemm_apply false false L.input_size b L.output_size 1 L.weights L.input_size go
        L.output_size 0 gin i j hi hj]
    simp [opEl]
  · show sgemm false true L.input_size L.output_size b 1 input L.input_size go
        L.output_size 0 L.grad_weights L.input_size (i + l * L.input_size) = _
    rw [sgemm_apply false true L.input_size L.output_size b 1 input L.input_size go
        L.output_size 0 L.grad_weights i l hi hl]
    simp [opEl]
  · show biasGradLoop go L.output_size b L.grad_bias idx = _
    exact biasGradLoop_apply go L.output_size L.grad_bias idx hidx b

/-- Witness for C2 on the concrete 1×1 layer `Lc`:
`GradInput[0] = 2*4 = 8`, `gradW[0] = 3*4 = 12`, `gradB[0] = 7 + 4 = 11`. -/
theorem backward_spec_witness :
    (Lc.backward cinput cgo cgin 1).1 0 = 8
      ∧ (Lc.backward cinput cgo cgin 1).2.grad_weights 0 = 12
      ∧ (Lc.backward cinput cgo cgin 1).2.grad_bias 0 = 11 := by
  have h := backward_spec Lc cinput cgo cgin 1 0 0 0 0
    (by decide) (by decide) (by decide) (by decide)
  refine ⟨h.1.trans ?_, h.2.1.trans ?_, h.2.2.trans ?_⟩ <;>
    norm_num [Lc, cinput, cgo]

/-- C3: two immediately consecutive `backward` calls with identical arguments
(the second receiving the `grad_input` buffer as the first call left it) yield
the same `grad_input` contents and the same `grad_weights` as a single call,
while `grad_bias` has received twice the single-call column-sum increment. -/
theorem backward_twice (L : FCLayer) (input go gin : Buf) (b : Nat) (idx : Nat)
    (hidx : idx < L.output_size) :
    ((L.backward input go gin b).2.backward input go ((L.backward input go gin b).1) b).1
        = (L.backward input go gin b).1
      ∧ ((L.backward input go gin b).2.backward input go
            ((L.backward input go gin b).1) b).2.grad_weights
        = (L.backward input go gin b).2.grad_weights
      ∧ ((L.backward input go gin b).2.backward input go
            ((L.backward input go gin b).1) b).2.grad_bias idx
        = L.grad_bias idx + 2 * (Finset.range b).sum (fun t => go (t * L.output_size + idx)) := by
  refine ⟨?_, ?_, ?_⟩
  · show sgemm false false L.input_size b L.output_size 1 L.weights L.input_size go
        L.output_size 0
        (sgemm false false L.input_size b L.output_size 1 L.weights L.input_size go
          L.output_size 0 gin L.input_size) L.input_size = _
    exact sgemm_beta_zero_twice _ _ _ _ _ _ _ _ _ _ _ _
  · show sgemm false true L.input_size L.output_size b 1 input L.input_size go
        L.output_size 0
        (sgemm false true L.input_size L.output_size b 1 input L.input_size go
          L.output_size 0 L.grad_weights L.input_size) L.input_size = _
    exact sgemm_beta_zero_twice _ _ _ _ _ _ _ _ _ _ _ _
  · show biasGradLoop go L.output_size b (biasGradLoop go L.output_size b L.grad_bias) idx = _
    rw [biasGradLoop_apply go L.output_size _ idx hidx b,
        biasGradLoop_apply go L.output_size _ idx hidx b]
    ring

/-- Witness for C3 on `Lc`: both repeated buffers agree with the single call
and `grad_bias[0] = 7 + 2*4 = 15` after the second call. -/
theorem backward_twice_witness :
    ((Lc.backward cinput cgo cgin 1).2.backward cinput cgo
          ((Lc.backward cinput cgo cgin 1).1) 1).1 = (Lc.backward cinput cgo cgin 1).1
      ∧ ((Lc.backward cinput cgo cgin 1).2.backward cinput cgo
            ((Lc.backward cinput cgo cgin 1).1) 1).2.grad_weights
        = (Lc.backward cinput cgo cgin 1).2.grad_weights
      ∧ ((Lc.backward cinput cgo cgin 1).2.backward cinput cgo
            ((Lc.backward cinput cgo cgin 1).1) 1).2.grad_bias 0 = 15 := by
  have h := backward_twice Lc cinput cgo cgin 1 0 (by decide)
  exact ⟨h.1, h.2.1, h.2.2.trans (by norm_num [Lc, cgo])⟩

/-- C4: immediately after construction, every weight produced by the
initializer (`(uniform * 2 - 1) * sqrtf(6 / (input_size*output_size))`)
satisfies `|w| ≤ sqrt(6 / (input_size*output_size))` — the `sqrtf` value
being pinned by the hypothesis to the nonnegative square root — and every
bias entry is exactly zero.  `curand_uniform` values lie in `(0,1] ⊆ [0,1]`. -/
theorem construct_weight_bound (input_size output_size : Nat) (w0 b0 gw0 gb0 u : Buf)
    (sqrtf : ℚ → ℚ) (idx i : Nat)
    (hu : 0 ≤ u idx ∧ u idx ≤ 1)
    (hs : 0 ≤ sqrtf (6 / ((input_size * output_size : Nat) : ℚ))
          ∧ sqrtf (6 / ((input_size * output_size : Nat) : ℚ))
              * sqrtf (6 / ((input_size * output_size : Nat) : ℚ))
            = 6 / ((input_size * output_size : Nat) : ℚ))
    (hidx : idx < input_size * output_size) (hi : i < output_size) :
    |(FCLayer.construct input_size output_size w0 b0 gw0 gb0 u sqrtf).weights idx|
        ≤ sqrtf (6 / ((input_size * output_size : Nat) : ℚ))
      ∧ (FCLayer.construct input_size output_size w0 b0 gw0 gb0 u sqrtf).bias i = 0 := by
  constructor
  · show |init_weights w0 (input_size * output_size)
        (sqrtf (2 / (input_size : ℚ))) u sqrtf idx| ≤ _
    unfold init_weights
    rw [if_pos hidx]
    have habs : |u idx * 2 - 1| ≤ 1 := by
      rw [abs_le]; constructor <;> linarith [hu.1, hu.2]
    calc |(u idx * 2 - 1) * sqrtf (6 / ((input_size * output_size : Nat) : ℚ))|
        = |u idx * 2 - 1| * |sqrtf (6 / ((input_size * output_size : Nat) : ℚ))| :=
          abs_mul _ _
      _ = |u idx * 2 - 1| * sqrtf (6 / ((input_size * output_size : Nat) : ℚ)) := by
          rw [abs_of_nonneg hs.1]
      _ ≤ 1 * sqrtf (6 / ((input_size * output_size : Nat) : ℚ)) :=
          mul_le_mul_of_nonneg_right habs hs.1
      _ = _ := one_mul _
  · show (if i < output_size then (0 : ℚ) else b0 i) = 0
    rw [if_pos hi]

/-- Witness for C4: a 2×3 layer (6 weights, so `6/6 = 1` and `sqrtf` may be
the identity-on-this-input function `fun _ => 1`), uniform draws all `1/2`:
`|weights 0| = 0 ≤ 1` and `bias 0 = 0`. -/
theorem construct_weight_bound_witness :
    |(FCLayer.construct 2 3 (fun _ => 0) (fun _ => 0) (fun _ => 0) (fun _ => 0)
        (fun _ => 1/2) (fun _ => 1)).weights 0| ≤ (1 : ℚ)
      ∧ (FCLayer.construct 2 3 (fun _ => 0) (fun _ => 0) (fun _ => 0) (fun _ => 0)
        (fun _ => 1/2) (fun _ => 1)).bias 0 = 0 := by
  have h := construct_weight_bound 2 3 (fun _ => 0) (fun _ => 0) (fun _ => 0) (fun _ => 0)
    (fun _ => 1/2) (fun _ => 1) 0 0 (by norm_num) (by norm_num) (by decide) (by decide)
  exact ⟨h.1, h.2⟩

/-- C5: the `init_weights` fill is independent of its fan-in `scale` argument
(`sqrtf(2 / input_size)` at the call site): any two scale values give
identical weight buffers, each in-range weight being
`(u idx * 2 - 1) * sqrtf(6 / size)` — the formula using only the total
weight count. -/
theorem init_weights_scale_independent (w0 : Buf) (size : Nat) (scale1 scale2 : ℚ)
    (u : Buf) (sqrtf : ℚ → ℚ) (idx : Nat) (hidx : idx < size) :
    init_weights w0 size scale1 u sqrtf = init_weights w0 size scale2 u sqrtf
      ∧ init_weights w0 size scale1 u sqrtf idx
        = (u idx * 2 - 1) * sqrtf (6 / (size : ℚ)) := by
  refine ⟨rfl, ?_⟩
  unfold init_weights
  rw [if_pos hidx]

/-- Witness for C5: scales `100` and `-3` give the same buffer on a
size-5 fill, and weight 0 follows the total-count formula. -/
theorem init_weights_scale_independent_witness :
    init_weights (fun _ => 0) 5 100 (fun _ => 1/2) (fun q => q)
        = init_weights (fun _ => 0) 5 (-3) (fun _ => 1/2) (fun q => q)
      ∧ init_weights (fun _ => 0) 5 100 (fun _ => 1/2) (fun q => q) 0
        = ((1 : ℚ)/2 * 2 - 1) * (6 / ((5 : Nat) : ℚ)) := by
  have h := init_weights_scale_independent (fun _ => 0) 5 100 (-3) (fun _ => 1/2)
    (fun q => q) 0 (by decide)
  exact ⟨h.1, h.2⟩

/-- C6: `update_params(lr)` sets `weights[i] := weights[i] - lr * grad_weights[i]`
for every `i < input_size * output_size` and
`bias[j] := bias[j] - lr * grad_bias[j]` for every `j < output_size`. -/
theorem update_params_spec (L : FCLayer) (lr : ℚ) (i j : Nat)
    (hi : i < L.input_size * L.output_size) (hj : j < L.output_size) :
    (L.update_params lr).weights i = L.weights i - lr * L.grad_weights i
      ∧ (L.update_params lr).bias j = L.bias j - lr * L.grad_bias j := by
  constructor
  · show update_params_kernel L.weights L.grad_weights
        (L.input_size * L.output_size) lr i = _
    unfold update_params_kernel
    rw [if_pos hi]
  · show update_params_kernel L.bias L.grad_bias L.output_size lr j = _
    unfold update_params_kernel
    rw [if_pos hj]

/-- Witness for C6 on `Lc` with `lr = 10`:
`weights[0] = 2 - 10*5 = -48`, `bias[0] = 0 - 10*7 = -70`. -/
theorem update_params_spec_witness :
    (Lc.update_params 10).weights 0 = -48 ∧ (Lc.update_params 10).bias 0 = -70 := by
  have h := update_params_spec Lc 10 0 0 (by decide) (by decide)
  exact ⟨h.1.trans (by norm_num [Lc]), h.2.trans (by norm_num [Lc])⟩

/-- C7: `update_params(0)` is a no-op on the parameters — the weight and bias
buffers are left identical to their pre-call values everywhere. -/
theorem update_params_zero_noop (L : FCLayer) :
    (L.update_params 0).weights = L.weights ∧ (L.update_params 0).bias = L.bias := by
  constructor <;> funext idx <;> simp [FCLayer.update_params, update_params_kernel]

/-- C9: `update_params` never writes the gradient accumulators — both
`grad_weights` and `grad_bias` are exactly those of the pre-call state. -/
theorem update_params_grad_frame (L : FCLayer) (lr : ℚ) :
    (L.update_params lr).grad_weights = L.grad_weights
      ∧ (L.update_params lr).grad_bias = L.grad_bias :=
  ⟨rfl, rfl⟩

/-- C8: with an all-zeros input, every column of the `forward` output equals
the bias vector exactly: entry `i` of column `j` is `bias i`. -/
theorem forward_zero_input (L : FCLayer) (output : Buf) (b : Nat) (i j : Nat)
    (hi : i < L.output_size) (hj : j < b) :
    L.forward (fun _ => 0) output b (j * L.output_size + i) = L.bias i :=
  addBiasLoop_apply L.bias L.output_size _ i hi b j hj

/-- Witness for C8 on `Lc`: the single output entry equals `bias 0 = 0`. -/
theorem forward_zero_input_witness :
    Lc.forward (fun _ => 0) cgin 1 0 = 0 := by
  have h := forward_zero_input Lc cgin 1 0 0 (by decide) (by decide)
  exact h.trans (by norm_num [Lc])

/-- C10: the constructor never writes `grad_weights` or `grad_bias` (they
keep their allocation contents `gw0`, `gb0`; only the bias buffer is
zero-filled), so after the first `backward` call `grad_bias idx` equals the
indeterminate initial value `gb0 idx` plus the column-sum of `GradOutput`,
not the column-sum alone. -/
theorem construct_grad_untouched (input_size output_size : Nat)
    (w0 b0 gw0 gb0 u : Buf) (sqrtf : ℚ → ℚ) (input go gin : Buf) (b : Nat) (idx : Nat)
    (hidx : idx < output_size) :
    (FCLayer.construct input_size output_size w0 b0 gw0 gb0 u sqrtf).grad_weights = gw0
      ∧ (FCLayer.construct input_size output_size w0 b0 gw0 gb0 u sqrtf).grad_bias = gb0
      ∧ ((FCLayer.construct input_size output_size w0 b0 gw0 gb0 u sqrtf).backward
            input go gin b).2.grad_bias idx
        = gb0 idx + (Finset.range b).sum (fun t => go (t * output_size + idx)) := by
  refine ⟨rfl, rfl, ?_⟩
  show biasGradLoop go output_size b gb0 idx = _
  exact biasGradLoop_apply go output_size gb0 idx hidx b

/-- Witness for C10: a 1×1 construction with allocation garbage `5` in
`grad_weights` and `7` in `grad_bias` keeps them, and the first `backward`
leaves `grad_bias 0 = 7 + 4 = 11`. -/
theorem construct_grad_untouched_witness :
    (FCLayer.construct 1 1 (fun _ => 0) (fun _ => 0) (fun _ => 5) (fun _ => 7)
        (fun _ => 1/2) (fun q => q)).grad_weights 0 = 5
      ∧ ((FCLayer.construct 1 1 (fun _ => 0) (fun _ => 0) (fun _ => 5) (fun _ => 7)
            (fun _ => 1/2) (fun q => q)).backward cinput cgo cgin 1).2.grad_bias 0 = 11 := by
  have h := construct_grad_untouched 1 1 (fun _ => 0) (fun _ => 0) (fun _ => 5) (fun _ => 7)
    (fun _ => 1/2) (fun q => q) cinput cgo cgin 1 0 (by decide)
  exact ⟨by rw [h.1], h.2.2.trans (by norm_num [cgo])⟩

end FC
